import Mathlib

/-!
Verification of the upsert/reconciliation engine of `src/sheet_sync.py`
(Google Sheets Sync v2).

Rows are modelled as association lists from column name to string value,
mirroring the Python dicts produced by `DataFrame.iterrows()` / `to_dict()`.
`_compute_changes` is modelled as a state transformer returning, besides the
change list and the insert/update counters, the final contents of the two
input dataframes (the Python code assigns an `email_norm` column to both
inputs in place, so the model must expose what the inputs hold afterwards).
`_post_batch` is modelled over an explicit schedule of per-attempt outcomes,
returning the success flag together with the number of attempts made and the
total time slept, so that the retry/backoff policy becomes a provable
statement.
-/

set_option autoImplicit false

namespace SheetSync

/-- A row: a Python dict from column name to string value. -/
abbrev Row := List (String × String)

/-- The `existing_by_email` dictionary: natural key → remote row. -/
abbrev KeyMap := List (String × Row)

/-- `BATCH_SIZE = 50` in `sheet_sync.py`. -/
def BATCH_SIZE : Nat := 50

/-- `RETRIES = 3` in `sheet_sync.py`. -/
def RETRIES : Nat := 3

/-- `RETRY_DELAY = 2` in `sheet_sync.py`. -/
def RETRY_DELAY : Nat := 2

/-- `SHEET_COLUMNS`: the canonical sheet header names, in order. -/
def SHEET_COLUMNS : List String :=
  ["NAME", "EMAIL", "ROLE", "COMPANY", "SOURCE", "DATE", "STATUS",
   "TEMPLATE USED", "NOTES"]

/-- `BACKEND_OWNED`: columns the backend may overwrite on resync. -/
def BACKEND_OWNED : List String :=
  ["NAME", "EMAIL", "ROLE", "COMPANY", "SOURCE", "DATE", "NOTES"]

/-- `WORKFLOW_OWNED`: columns owned by the outreach workflow. -/
def WORKFLOW_OWNED : List String :=
  ["STATUS", "TEMPLATE USED"]

/-- ASCII lowercasing of one character, as Python `str.lower` acts on the
ASCII range relevant to email keys. -/
def lowerChar (c : Char) : Char :=
  if c.isUpper then Char.ofNat (c.toNat + 32) else c

/-- Python `s.lower()`. -/
def pyLower (s : String) : String := ⟨s.data.map lowerChar⟩

/-- Python `s.strip()`: drop whitespace from both ends. -/
def pyStrip (s : String) : String :=
  ⟨((s.data.dropWhile Char.isWhitespace).reverse.dropWhile
      Char.isWhitespace).reverse⟩

/-- Dictionary lookup: the value stored at key `k`, if any. -/
def rowFind : Row → String → Option String
  | [], _ => none
  | p :: r, k => if p.1 == k then some p.2 else rowFind r k

/-- Python `d.get(k, default)`. -/
def rowGetD (r : Row) (k d : String) : String := (rowFind r k).getD d

/-- Python `d.get(k, "")`, the form used throughout `_compute_changes`. -/
def rowGet (r : Row) (k : String) : String := rowGetD r k ""

/-- Python `k in d`. -/
def hasKey (r : Row) (k : String) : Bool := (rowFind r k).isSome

/-- Python `d[k] = v`: overwrite the existing entry in place, else append. -/
def rowSet : Row → String → String → Row
  | [], k, v => [(k, v)]
  | p :: r, k, v => if p.1 == k then (k, v) :: r else p :: rowSet r k v

/-- `str(x).strip().lower()`: the natural-key normalisation. -/
def normKey (s : String) : String := pyLower (pyStrip s)

/-- The natural key of a row: normalised `EMAIL` value. -/
def keyOf (r : Row) : String := normKey (rowGet r "EMAIL")

/-- `df["email_norm"] = df["EMAIL"].str.strip().str.lower()`, per row. -/
def annotRow (r : Row) : Row := rowSet r "email_norm" (keyOf r)

/-- Python `m[k] = v` on the `existing_by_email` dict. -/
def mapIns : KeyMap → String → Row → KeyMap
  | [], k, v => [(k, v)]
  | p :: m, k, v => if p.1 == k then (k, v) :: m else p :: mapIns m k v

/-- Python `m.get(k)` / `k in m` on the `existing_by_email` dict. -/
def mapLookup : KeyMap → String → Option Row
  | [], _ => none
  | p :: m, k => if p.1 == k then some p.2 else mapLookup m k

/-- Building `existing_by_email`: iterate the (annotated) sheet rows in
order, skip empty keys, unconditionally overwrite the entry at each key. -/
def buildMap (rows : List Row) : KeyMap :=
  rows.foldl
    (fun m r =>
      let email := rowGet r "email_norm"
      if email == "" then m else mapIns m email r)
    []

/-- `{k: local.get(k, "") for k in SHEET_COLUMNS}`: a verbatim insert row. -/
def insertRowOf (l : Row) : Row :=
  SHEET_COLUMNS.map (fun c => (c, rowGet l c))

/-- The merge loop of `_compute_changes`: workflow-owned columns keep the
sheet value, backend-owned columns take the latest local value, anything
else falls back to `local.get(col, existing.get(col, ""))`. -/
def mergeRow (l ex : Row) : Row :=
  SHEET_COLUMNS.map (fun c =>
    (c,
      if WORKFLOW_OWNED.contains c then rowGet ex c
      else if BACKEND_OWNED.contains c then rowGet l c
      else rowGetD l c (rowGet ex c)))

/-- One iteration of the upsert loop: the change row emitted for a local
(annotated) row, given the `existing_by_email` map. -/
def rowFor (m : KeyMap) (l : Row) : Row :=
  let k := rowGet l "email_norm"
  if k == "" then insertRowOf l
  else
    match mapLookup m k with
    | none => insertRowOf l
    | some ex => mergeRow l ex

/-- Whether the upsert loop classifies a local (annotated) row as an
insert (`True`) rather than an update (`False`). -/
def isInsert (m : KeyMap) (l : Row) : Bool :=
  let k := rowGet l "email_norm"
  k == "" || (mapLookup m k).isNone

/-- The upsert loop of `_compute_changes` over the annotated local rows:
returns the change list together with the insert and update counters. -/
def changesLoop (m : KeyMap) : List Row → List Row × Nat × Nat
  | [] => ([], 0, 0)
  | l :: rest =>
    let (cs, ins, upd) := changesLoop m rest
    if isInsert m l then (rowFor m l :: cs, ins + 1, upd)
    else (rowFor m l :: cs, ins, upd + 1)

/-- The full result of `_compute_changes`, including the final contents of
the two dataframes passed in (both gain an `email_norm` column when the
sheet is non-empty). -/
structure ComputeResult where
  changes : List Row
  inserts : Nat
  updates : Nat
  dfLocalAfter : List Row
  dfSheetAfter : List Row
deriving DecidableEq, Repr

/-- `_compute_changes(df_local, df_sheet)`.  When the sheet is empty the
local rows are returned as-is; otherwise both dataframes are annotated with
`email_norm`, the `existing_by_email` map is built last-write-wins from the
sheet, and each local row yields either a verbatim insert or a merged
update. -/
def computeChanges (dfLocal dfSheet : List Row) : ComputeResult :=
  if dfSheet.isEmpty then
    ⟨dfLocal, 0, 0, dfLocal, dfSheet⟩
  else
    let sheetA := dfSheet.map annotRow
    let localA := dfLocal.map annotRow
    let m := buildMap sheetA
    let (cs, ins, upd) := changesLoop m localA
    ⟨cs, ins, upd, localA, sheetA⟩

/-! ### Row normaliser (`_load_local_rows`) -/

/-- `build_name`: `f"{first} {last}".strip()` when either part is
non-empty after trimming, else the raw `name` field trimmed. -/
def buildName (row : Row) : String :=
  let first := pyStrip (rowGetD row "first_name" "")
  let last := pyStrip (rowGetD row "last_name" "")
  if first ≠ "" ∨ last ≠ "" then pyStrip (first ++ " " ++ last)
  else pyStrip (rowGetD row "name" "")

/-- One record of `_load_local_rows`: maps a raw CSV row to the sheet
schema.  `now` stands for `pd.Timestamp.utcnow().isoformat()`, the value a
`dict.get` default supplies only when the key is absent.  The trailing fold
is the `rec.setdefault(col, "")` loop. -/
def buildRec (row : Row) (now : String) : Row :=
  let rec0 : Row :=
    [("NAME", buildName row),
     ("EMAIL", pyStrip (rowGetD row "email" "")),
     ("ROLE", pyStrip (rowGetD row "job_title" "")),
     ("COMPANY", pyStrip (rowGetD row "company" "")),
     ("SOURCE",
       let s := pyStrip (rowGetD row "source" "Hunter.io")
       if s == "" then "Hunter.io" else s),
     ("DATE", pyStrip (rowGetD row "date" now)),
     ("STATUS", "Pending"),
     ("TEMPLATE USED", ""),
     ("NOTES", pyStrip (rowGetD row "linkedin_url" ""))]
  SHEET_COLUMNS.foldl
    (fun r c => if hasKey r c then r else r ++ [(c, "")]) rec0

/-! ### Batch dispatcher (`_post_batch` and the `sync` loop) -/

/-- The observable outcome of one POST attempt: either the request raised
(timeout, connection error), or a response came back with a status code and
a flag telling whether the JSON body was a dict carrying
`status == "error"`. -/
inductive Outcome where
  | exn : Outcome
  | resp (code : Nat) (errDict : Bool) : Outcome
deriving DecidableEq, Repr

/-- An attempt succeeds exactly when the status code is 200 and the body is
not a dict with `status == "error"` (an unparsable or non-dict body leaves
`body = {}`, which is not an error marker). -/
def attemptOk : Outcome → Bool
  | .resp 200 errDict => !errDict
  | _ => false

/-- Time slept after a failed attempt: `time.sleep(RETRY_DELAY)` sits in
the `except` branch only, so only a raised exception sleeps. -/
def attemptSleep : Outcome → Nat
  | .exn => RETRY_DELAY
  | _ => 0

/-- What `_post_batch` returns, instrumented with the number of attempts
made and the total time spent sleeping. -/
structure PostTrace where
  success : Bool
  attempts : Nat
  sleepTime : Nat
deriving DecidableEq, Repr

/-- The `for attempt in range(1, RETRIES + 1)` loop: `n` attempts remain,
the next attempt has index `i`, and `f` gives each attempt's outcome. -/
def postBatchGo (f : Nat → Outcome) : Nat → Nat → PostTrace
  | 0, _ => ⟨false, 0, 0⟩
  | n + 1, i =>
    if attemptOk (f i) then ⟨true, 1, 0⟩
    else
      let t := postBatchGo f n (i + 1)
      ⟨t.success, t.attempts + 1, attemptSleep (f i) + t.sleepTime⟩

/-- `_post_batch(batch)` under outcome schedule `f` (attempts are numbered
from 1, as in the source).  An empty batch returns `True` immediately. -/
def postBatch (batch : List Row) (f : Nat → Outcome) : PostTrace :=
  if batch.isEmpty then ⟨true, 0, 0⟩
  else postBatchGo f RETRIES 1

/-- `for i in range(0, len(changes), b): changes[i : i + b]`: the list of
contiguous batches, in order.  Python's `range(0, n, b)` has `⌈n / b⌉`
elements, and the slice `changes[i : i + b]` is `(changes.drop i).take b`. -/
def chunksOf {α : Type} (b : Nat) (l : List α) : List (List α) :=
  (List.range ((l.length + b - 1) / b)).map (fun j => (l.drop (j * b)).take b)

/-- The `sent` accumulation of `sync`: batch `j` is delivered through
`_post_batch` under its own outcome schedule `sched j`, and a delivered
batch adds its row count. -/
def dispatchGo (sched : Nat → Nat → Outcome) : Nat → List (List Row) → Nat
  | _, [] => 0
  | j, batch :: rest =>
    (if (postBatch batch (sched j)).success then batch.length else 0)
      + dispatchGo sched (j + 1) rest

/-- The dispatch loop of `sync` with batch size `b`. -/
def dispatchWith (b : Nat) (changes : List Row) (sched : Nat → Nat → Outcome) :
    Nat :=
  dispatchGo sched 0 (chunksOf b changes)

/-- The dispatch stage of `sync`: batch size `BATCH_SIZE`. -/
def syncDispatch (changes : List Row) (sched : Nat → Nat → Outcome) : Nat :=
  dispatchWith BATCH_SIZE changes sched

/-- Total time slept across `n` consecutive attempts starting at attempt
`i`: the sum of the per-attempt sleep amounts. -/
def sleepSum (f : Nat → Outcome) : Nat → Nat → Nat
  | _, 0 => 0
  | i, n + 1 => attemptSleep (f i) + sleepSum f (i + 1) n

/-- The last row of a list satisfying a predicate, if any: the row that
survives when entries are written into a dictionary in iteration order. -/
def lastWith (p : Row → Bool) : List Row → Option Row
  | [] => none
  | r :: rest =>
    match lastWith p rest with
    | some x => some x
    | none => if p r then some r else none

/-! ### Association-list lemmas -/

theorem rowFind_rowSet_self (r : Row) (k v : String) :
    rowFind (rowSet r k v) k = some v := by
  induction r with
  | nil => simp [rowSet, rowFind]
  | cons p r ih =>
    by_cases h : p.1 = k
    · simp [rowSet, h, rowFind]
    · simpa [rowSet, h, rowFind] using ih

theorem rowGet_rowSet_self (r : Row) (k v : String) :
    rowGet (rowSet r k v) k = v := by
  simp [rowGet, rowGetD, rowFind_rowSet_self]

theorem rowFind_rowSet_ne (r : Row) (k v k' : String) (h : k' ≠ k) :
    rowFind (rowSet r k v) k' = rowFind r k' := by
  induction r with
  | nil => simp [rowSet, rowFind, Ne.symm h]
  | cons p r ih =>
    by_cases hp : p.1 = k
    · subst hp
      simp [rowSet, rowFind, Ne.symm h]
    · by_cases hp' : p.1 = k'
      · simp [rowSet, hp, rowFind, hp', h]
      · simpa [rowSet, hp, rowFind, hp'] using ih

theorem rowGet_rowSet_ne (r : Row) (k v k' : String) (h : k' ≠ k) :
    rowGet (rowSet r k v) k' = rowGet r k' := by
  simp [rowGet, rowGetD, rowFind_rowSet_ne r k v k' h]

theorem mapLookup_mapIns_self (m : KeyMap) (k : String) (r : Row) :
    mapLookup (mapIns m k r) k = some r := by
  induction m with
  | nil => simp [mapIns, mapLookup]
  | cons p m ih =>
    by_cases h : p.1 = k
    · simp [mapIns, h, mapLookup]
    · simpa [mapIns, h, mapLookup] using ih

theorem mapLookup_mapIns_ne (m : KeyMap) (k : String) (r : Row) (k' : String)
    (h : k' ≠ k) :
    mapLookup (mapIns m k r) k' = mapLookup m k' := by
  induction m with
  | nil => simp [mapIns, mapLookup, Ne.symm h]
  | cons p m ih =>
    by_cases hp : p.1 = k
    · subst hp
      simp [mapIns, mapLookup, Ne.symm h]
    · by_cases hp' : p.1 = k'
      · simp [mapIns, hp, mapLookup, hp', h]
      · simpa [mapIns, hp, mapLookup, hp'] using ih

/-- The generalised last-write-wins invariant of the map-building fold. -/
theorem buildMap_foldl_lookup (k : String) (hk : k ≠ "") :
    ∀ (rows : List Row) (m : KeyMap),
      mapLookup
        (rows.foldl
          (fun m r =>
            let email := rowGet r "email_norm"
            if email == "" then m else mapIns m email r) m) k =
      match lastWith (fun r => rowGet r "email_norm" == k) rows with
      | some x => some x
      | none => mapLookup m k := by
  intro rows
  induction rows with
  | nil => intro m; simp [lastWith]
  | cons r rest ih =>
    intro m
    rw [List.foldl_cons, ih]
    cases hrest : lastWith (fun r => rowGet r "email_norm" == k) rest with
    | some x => simp [lastWith, hrest]
    | none =>
      by_cases he : rowGet r "email_norm" = ""
      · have hpk : (rowGet r "email_norm" == k) = false := by
          simp [he, Ne.symm hk]
        simp [lastWith, hrest, he, hpk, Ne.symm hk]
      · by_cases hek : rowGet r "email_norm" = k
        · simp [lastWith, hrest, he, hek, hk, mapLookup_mapIns_self]
        · have : (rowGet r "email_norm" == k) = false := by simp [hek]
          simp [lastWith, hrest, he, this,
            mapLookup_mapIns_ne _ _ _ _ (Ne.symm hek)]

/-- Looking a non-empty key up in `existing_by_email` returns exactly the
last remote row (in iteration order) carrying that key. -/
theorem mapLookup_buildMap (rows : List Row) (k : String) (hk : k ≠ "") :
    mapLookup (buildMap rows) k =
      lastWith (fun r => rowGet r "email_norm" == k) rows := by
  rw [buildMap, buildMap_foldl_lookup k hk rows []]
  cases hrows : lastWith (fun r => rowGet r "email_norm" == k) rows <;>
    simp [mapLookup]

/-- `lastWith` commutes with `map` when the predicate factors through the
mapped function. -/
theorem lastWith_map (p q : Row → Bool) (g : Row → Row)
    (hpq : ∀ r, p (g r) = q r) :
    ∀ l : List Row, lastWith p (l.map g) = (lastWith q l).map g := by
  intro l
  induction l with
  | nil => simp [lastWith]
  | cons r rest ih =>
    simp only [List.map_cons, lastWith, ih]
    cases hrest : lastWith q rest with
    | some x => simp
    | none => by_cases h : q r = true <;> simp [hpq, h]

/-- If no element satisfies the predicate, `lastWith` finds nothing. -/
theorem lastWith_eq_none (p : Row → Bool) :
    ∀ l : List Row, (∀ r ∈ l, p r = false) → lastWith p l = none := by
  intro l
  induction l with
  | nil => intro _; simp [lastWith]
  | cons r rest ih =>
    intro h
    have hrest := ih (fun x hx => h x (List.mem_cons_of_mem r hx))
    simp [lastWith, hrest, h r (List.mem_cons_self r rest)]

/-- If `lastWith` finds a row, that row is in the list and satisfies the
predicate. -/
theorem lastWith_mem (p : Row → Bool) :
    ∀ (l : List Row) (x : Row), lastWith p l = some x →
      x ∈ l ∧ p x = true := by
  intro l
  induction l with
  | nil => intro x hx; simp [lastWith] at hx
  | cons r rest ih =>
    intro x hx
    simp only [lastWith] at hx
    cases hrest : lastWith p rest with
    | some y =>
      rw [hrest] at hx
      obtain ⟨hmem, hp⟩ := ih y hrest
      cases hx
      exact ⟨List.mem_cons_of_mem r hmem, hp⟩
    | none =>
      rw [hrest] at hx
      by_cases h : p r = true
      · rw [if_pos h] at hx
        cases hx
        exact ⟨List.mem_cons_self r rest, h⟩
      · rw [if_neg h] at hx
        cases hx

/-! ### Structure of the upsert loop -/

/-- The upsert loop maps the per-row step over the local rows and counts
inserts and updates. -/
theorem changesLoop_eq (m : KeyMap) :
    ∀ ls : List Row,
      changesLoop m ls =
        (ls.map (rowFor m), ls.countP (fun l => isInsert m l),
          ls.countP (fun l => !isInsert m l)) := by
  intro ls
  induction ls with
  | nil => simp [changesLoop]
  | cons l rest ih =>
    by_cases h : isInsert m l = true <;>
      simp [changesLoop, h, ih, List.countP_cons]

/-- `_compute_changes` on a non-empty sheet: annotate both frames, build
the last-write-wins map, apply the per-row step in order. -/
theorem computeChanges_eq (dfLocal dfSheet : List Row) (h : dfSheet ≠ []) :
    computeChanges dfLocal dfSheet =
      ⟨(dfLocal.map annotRow).map
          (rowFor (buildMap (dfSheet.map annotRow))),
        (dfLocal.map annotRow).countP
          (fun l => isInsert (buildMap (dfSheet.map annotRow)) l),
        (dfLocal.map annotRow).countP
          (fun l => !isInsert (buildMap (dfSheet.map annotRow)) l),
        dfLocal.map annotRow,
        dfSheet.map annotRow⟩ := by
  match dfSheet, h with
  | r :: rest, _ => simp [computeChanges, changesLoop_eq]

/-! ### Per-column evaluation of the produced rows -/

theorem rowGet_annotRow_email_norm (r : Row) :
    rowGet (annotRow r) "email_norm" = keyOf r :=
  rowGet_rowSet_self r "email_norm" (keyOf r)

theorem rowGet_annotRow_ne (r : Row) (c : String) (h : c ≠ "email_norm") :
    rowGet (annotRow r) c = rowGet r c :=
  rowGet_rowSet_ne r "email_norm" (keyOf r) c h

/-- An insert row carries the local row's value at every canonical
column. -/
theorem rowGet_insertRowOf (l : Row) (c : String)
    (hc : SHEET_COLUMNS.contains c) :
    rowGet (insertRowOf l) c = rowGet l c := by
  have hm : c ∈ SHEET_COLUMNS := by simpa using hc
  fin_cases hm <;> rfl

/-- A merged row carries the sheet value at every workflow-owned column. -/
theorem rowGet_mergeRow_workflow (l ex : Row) (c : String)
    (hc : WORKFLOW_OWNED.contains c) :
    rowGet (mergeRow l ex) c = rowGet ex c := by
  have hm : c ∈ WORKFLOW_OWNED := by simpa using hc
  fin_cases hm <;> rfl

/-- A merged row carries the local value at every backend-owned column. -/
theorem rowGet_mergeRow_backend (l ex : Row) (c : String)
    (hc : BACKEND_OWNED.contains c) :
    rowGet (mergeRow l ex) c = rowGet l c := by
  have hm : c ∈ BACKEND_OWNED := by simpa using hc
  fin_cases hm <;> rfl

theorem backend_ne_email_norm (c : String) (hc : BACKEND_OWNED.contains c) :
    c ≠ "email_norm" := by
  have hm : c ∈ BACKEND_OWNED := by simpa using hc
  fin_cases hm <;> decide

theorem sheet_col_ne_email_norm (c : String)
    (hc : SHEET_COLUMNS.contains c) : c ≠ "email_norm" := by
  have hm : c ∈ SHEET_COLUMNS := by simpa using hc
  fin_cases hm <;> decide

/-- Annotation leaves the natural key unchanged (`EMAIL` is untouched). -/
theorem keyOf_annotRow (r : Row) : keyOf (annotRow r) = keyOf r := by
  unfold keyOf
  rw [rowGet_annotRow_ne r "EMAIL" (by decide)]

/-- The emitted change row keeps the local row's `EMAIL`, hence its
natural key. -/
theorem keyOf_rowFor (m : KeyMap) (l : Row) :
    keyOf (rowFor m l) = keyOf l := by
  have hins : keyOf (insertRowOf l) = keyOf l := by
    unfold keyOf
    rw [rowGet_insertRowOf l "EMAIL" (by decide)]
  have hmer : ∀ ex, keyOf (mergeRow l ex) = keyOf l := by
    intro ex
    unfold keyOf
    rw [rowGet_mergeRow_backend l ex "EMAIL" (by decide)]
  unfold rowFor
  by_cases h : (rowGet l "email_norm" == "") = true
  · simpa [h] using hins
  · cases hm : mapLookup m (rowGet l "email_norm") with
    | none => simpa [h, hm] using hins
    | some ex => simpa [h, hm] using hmer ex

/-- Re-merging a local row against its own (annotated) insert row gives
back the insert row: the second sync reproduces the insert verbatim. -/
theorem mergeRow_rowSet_insertRowOf (l : Row) (e : String) :
    mergeRow l (rowSet (insertRowOf l) "email_norm" e) = insertRowOf l := rfl

/-- Re-merging a local row against its own (annotated) merged row gives
back the same merged row: the second sync reproduces the update verbatim. -/
theorem mergeRow_rowSet_mergeRow (l ex : Row) (e : String) :
    mergeRow l (rowSet (mergeRow l ex) "email_norm" e) = mergeRow l ex := rfl

/-! ### Retry loop lemmas -/

theorem postBatch_of_ne_nil (batch : List Row) (f : Nat → Outcome)
    (hb : batch ≠ []) :
    postBatch batch f = postBatchGo f RETRIES 1 := by
  cases batch with
  | nil => exact absurd rfl hb
  | cons r rest => rfl

theorem postBatchGo_attempts_le (f : Nat → Outcome) :
    ∀ n i, (postBatchGo f n i).attempts ≤ n := by
  intro n
  induction n with
  | zero => intro i; simp [postBatchGo]
  | succ n ih =>
    intro i
    by_cases h : attemptOk (f i) = true
    · simp [postBatchGo, h]
    · simp only [postBatchGo, h, if_false, Bool.false_eq_true]
      have := ih (i + 1)
      omega

/-- If every attempt in the window fails, the loop makes all `n` attempts,
returns failure and sleeps the summed per-attempt amounts. -/
theorem postBatchGo_all_fail (f : Nat → Outcome) :
    ∀ n i, (∀ j, i ≤ j → j < i + n → attemptOk (f j) = false) →
      postBatchGo f n i = ⟨false, n, sleepSum f i n⟩ := by
  intro n
  induction n with
  | zero => intro i _; simp [postBatchGo, sleepSum]
  | succ n ih =>
    intro i h
    have h0 : attemptOk (f i) = false := h i le_rfl (by omega)
    have hrest := ih (i + 1) (fun j hj1 hj2 => h j (by omega) (by omega))
    simp [postBatchGo, h0, hrest, sleepSum]

/-- If attempt `i + t` is the first success inside the window, the loop
stops there: success, `t + 1` attempts, and only the sleeps of the `t`
failed attempts before it. -/
theorem postBatchGo_first_ok (f : Nat → Outcome) :
    ∀ n t i, t < n → attemptOk (f (i + t)) = true →
      (∀ j, i ≤ j → j < i + t → attemptOk (f j) = false) →
      postBatchGo f n i = ⟨true, t + 1, sleepSum f i t⟩ := by
  intro n
  induction n with
  | zero => intro t i ht; exact absurd ht (by omega)
  | succ n ih =>
    intro t i ht hok hfail
    cases t with
    | zero =>
      have hok0 : attemptOk (f i) = true := by simpa using hok
      simp [postBatchGo, hok0, sleepSum]
    | succ t =>
      have h0 : attemptOk (f i) = false := hfail i le_rfl (by omega)
      have hok' : attemptOk (f (i + 1 + t)) = true := by
        rwa [show i + (t + 1) = i + 1 + t by omega] at hok
      have hrest := ih t (i + 1) (by omega) hok'
        (fun j hj1 hj2 => hfail j (by omega) (by omega))
      simp [postBatchGo, h0, hrest, sleepSum]

/-! ### Batch partition lemmas -/

theorem chunksOf_nil {α : Type} (b : Nat) :
    chunksOf b ([] : List α) = [] := by
  have h : (b - 1) / b = 0 := by
    cases b with
    | zero => simp
    | succ n => exact Nat.div_eq_of_lt (by omega)
  simp [chunksOf, h]

/-- One step of the slicing loop: the first batch is `take b`, the rest is
the slicing of `drop b`. -/
theorem chunksOf_cons_eq {α : Type} (b : Nat) (hb : 0 < b) (l : List α)
    (hl : l ≠ []) :
    chunksOf b l = l.take b :: chunksOf b (l.drop b) := by
  have hlen : 1 ≤ l.length := List.length_pos.mpr hl
  have hcount : (l.length + b - 1) / b =
      ((l.drop b).length + b - 1) / b + 1 := by
    rw [List.length_drop]
    rcases le_or_lt l.length b with h | h
    · have h1 : l.length - b = 0 := by omega
      rw [h1]
      have h2 : (0 + b - 1) / b = 0 := Nat.div_eq_of_lt (by omega)
      rw [h2]
      have h3 : l.length + b - 1 = (l.length - 1) + b := by omega
      rw [h3, Nat.add_div_right _ hb, Nat.div_eq_of_lt (by omega)]
    · have h3 : l.length + b - 1 = (l.length - b + b - 1) + b := by omega
      rw [h3, Nat.add_div_right _ hb]
  rw [chunksOf, hcount, List.range_succ_eq_map, List.map_cons, List.map_map]
  rw [chunksOf]
  refine congrArg₂ _ (by simp) ?_
  refine congrArg (fun f => List.map f (List.range
    (((l.drop b).length + b - 1) / b))) ?_
  funext j
  show (l.drop ((j + 1) * b)).take b = ((l.drop b).drop (j * b)).take b
  rw [List.drop_drop]
  congr 2
  rw [Nat.succ_mul, Nat.add_comm]

theorem chunksOf_join {α : Type} (b : Nat) (hb : 0 < b) :
    ∀ (n : Nat) (l : List α), l.length ≤ n → (chunksOf b l).flatten = l := by
  intro n
  induction n with
  | zero =>
    intro l h
    have : l = [] := List.eq_nil_of_length_eq_zero (by omega)
    subst this
    simp [chunksOf_nil]
  | succ n ih =>
    intro l h
    by_cases hl : l = []
    · subst hl
      simp [chunksOf_nil]
    · rw [chunksOf_cons_eq b hb l hl, List.flatten_cons,
        ih (l.drop b) (by
          rw [List.length_drop]
          have := List.length_pos.mpr hl
          omega)]
      exact List.take_append_drop b l

theorem chunksOf_mem_length_le {α : Type} (b : Nat) (l : List α)
    (batch : List α) (h : batch ∈ chunksOf b l) : batch.length ≤ b := by
  rw [chunksOf] at h
  obtain ⟨j, _, rfl⟩ := List.mem_map.mp h
  simp [List.length_take]

/-- All batches delivered: the accumulated count is the total row count. -/
theorem dispatchGo_all_ok (sched : Nat → Nat → Outcome) :
    ∀ (bs : List (List Row)) (j : Nat),
      (∀ t bt, bs[t]? = some bt →
        (postBatch bt (sched (j + t))).success = true) →
      dispatchGo sched j bs = (bs.map List.length).sum := by
  intro bs
  induction bs with
  | nil => intro j _; simp [dispatchGo]
  | cons batch rest ih =>
    intro j h
    have h0 : (postBatch batch (sched j)).success = true := by
      simpa using h 0 batch (by simp)
    have hrest := ih (j + 1) (fun t bt hbt => by
      have := h (t + 1) bt (by simpa using hbt)
      rwa [show j + (t + 1) = j + 1 + t by omega] at this)
    simp [dispatchGo, h0, hrest]

/-- Exactly one batch dropped: the accumulated count is the total minus
that batch's row count. -/
theorem dispatchGo_one_fail (sched : Nat → Nat → Outcome) :
    ∀ (bs : List (List Row)) (j t0 : Nat) (bt0 : List Row),
      bs[t0]? = some bt0 →
      (postBatch bt0 (sched (j + t0))).success = false →
      (∀ t bt, t ≠ t0 → bs[t]? = some bt →
        (postBatch bt (sched (j + t))).success = true) →
      dispatchGo sched j bs = (bs.map List.length).sum - bt0.length := by
  intro bs
  induction bs with
  | nil => intro j t0 bt0 h; simp at h
  | cons batch rest ih =>
    intro j t0 bt0 hbt0 hfail hok
    cases t0 with
    | zero =>
      have hb : batch = bt0 := by simpa using hbt0
      subst hb
      have h0 : (postBatch batch (sched j)).success = false := by
        simpa using hfail
      have hrest := dispatchGo_all_ok sched rest (j + 1) (fun t bt hbt => by
        have := hok (t + 1) bt (by omega) (by simpa using hbt)
        rwa [show j + (t + 1) = j + 1 + t by omega] at this)
      simp [dispatchGo, h0, hrest]
    | succ t0 =>
      have h0 : (postBatch batch (sched j)).success = true := by
        simpa using hok 0 batch (by omega) (by simp)
      have hbt0' : rest[t0]? = some bt0 := by simpa using hbt0
      have hfail' : (postBatch bt0 (sched (j + 1 + t0))).success = false := by
        rwa [show j + (t0 + 1) = j + 1 + t0 by omega] at hfail
      have hok' : ∀ t bt, t ≠ t0 → rest[t]? = some bt →
          (postBatch bt (sched (j + 1 + t))).success = true := by
        intro t bt ht hbt
        have := hok (t + 1) bt (by omega) (by simpa using hbt)
        rwa [show j + (t + 1) = j + 1 + t by omega] at this
      have hrest := ih (j + 1) t0 bt0 hbt0' hfail' hok'
      have hle : bt0.length ≤ (rest.map List.length).sum := by
        have hmem : bt0 ∈ rest := List.getElem?_mem hbt0'
        exact List.single_le_sum (fun x _ => Nat.zero_le x) _
          (List.mem_map_of_mem List.length hmem)
      simp only [dispatchGo, h0, if_pos, List.map_cons, List.sum_cons,
        hrest]
      omega

/-! ### Claim theorems -/

/-- C10: every canonical column lies in exactly one of the two ownership
classes (the classes are disjoint and jointly cover the field set), and
consequently the merge's fallback branch is unreachable: the merge loop is
extensionally the total two-way merge, so no merged row is ever partially
merged. -/
theorem c10_total_classification :
    (∀ c, c ∈ SHEET_COLUMNS →
      (WORKFLOW_OWNED.contains c = true ∧ BACKEND_OWNED.contains c = false) ∨
      (BACKEND_OWNED.contains c = true ∧ WORKFLOW_OWNED.contains c = false)) ∧
    (∀ l ex : Row,
      mergeRow l ex =
        SHEET_COLUMNS.map (fun c =>
          (c, if WORKFLOW_OWNED.contains c then rowGet ex c
              else rowGet l c))) := by
  refine ⟨by decide, fun l ex => rfl⟩

/-- Witness for C10 at the concrete column `"STATUS"`. -/
theorem c10_total_classification_witness :
    (WORKFLOW_OWNED.contains "STATUS" = true ∧
      BACKEND_OWNED.contains "STATUS" = false) ∨
    (BACKEND_OWNED.contains "STATUS" = true ∧
      WORKFLOW_OWNED.contains "STATUS" = false) :=
  c10_total_classification.1 "STATUS" (by decide)

/-- C5: for any non-empty natural key, the `existing_by_email` map built
by iterating the remote rows in order resolves to the **last** remote row
in iteration order carrying that key — last-write-wins under duplicate
keys, so the later duplicate is the one used in every merge. -/
theorem c5_last_write_wins (rows : List Row) (k : String) (hk : k ≠ "") :
    mapLookup (buildMap rows) k =
      lastWith (fun r => rowGet r "email_norm" == k) rows :=
  mapLookup_buildMap rows k hk

/-- Witness for C5: two remote rows share the key `"a"`; the map holds the
second one. -/
theorem c5_last_write_wins_witness :
    mapLookup
        (buildMap [[("email_norm", "a"), ("NAME", "first")],
          [("email_norm", "a"), ("NAME", "second")]]) "a" =
      lastWith (fun r => rowGet r "email_norm" == "a")
        [[("email_norm", "a"), ("NAME", "first")],
          [("email_norm", "a"), ("NAME", "second")]] ∧
    mapLookup
        (buildMap [[("email_norm", "a"), ("NAME", "first")],
          [("email_norm", "a"), ("NAME", "second")]]) "a" =
      some [("email_norm", "a"), ("NAME", "second")] :=
  ⟨c5_last_write_wins _ "a" (by decide), by decide⟩

/-- Counterexample to C9 as stated: `_compute_changes` assigns an
`email_norm` column to the local dataframe in place, so after the call the
local input no longer holds exactly the data it held before. -/
theorem c9_counterexample :
    (computeChanges [[("EMAIL", "a@x.com")]]
        [[("EMAIL", "b@y.com")]]).dfLocalAfter
      ≠ [[("EMAIL", "a@x.com")]] := by decide

/-- C9 amended: the merge produces new rows and never rewrites any
canonical column of either input; the only in-place modification is that
both input dataframes gain the derived `email_norm` column (when the sheet
is non-empty). -/
theorem c9_no_mutation_amended (dfLocal dfSheet : List Row)
    (hs : dfSheet ≠ []) :
    (computeChanges dfLocal dfSheet).dfLocalAfter = dfLocal.map annotRow ∧
    (computeChanges dfLocal dfSheet).dfSheetAfter = dfSheet.map annotRow ∧
    (∀ r : Row, ∀ c : String, c ≠ "email_norm" →
      rowGet (annotRow r) c = rowGet r c) := by
  rw [computeChanges_eq dfLocal dfSheet hs]
  exact ⟨rfl, rfl, fun r c hc => rowGet_annotRow_ne r c hc⟩

/-- Witness for C9 amended at a concrete local/remote pair. -/
theorem c9_no_mutation_amended_witness :
    (computeChanges [[("EMAIL", "a@x.com")]]
        [[("EMAIL", "b@y.com")]]).dfLocalAfter
      = [[("EMAIL", "a@x.com")]].map annotRow ∧
    rowGet (annotRow [("EMAIL", "a@x.com")]) "EMAIL" =
      rowGet [("EMAIL", "a@x.com")] "EMAIL" := by
  have h := c9_no_mutation_amended [[("EMAIL", "a@x.com")]]
    [[("EMAIL", "b@y.com")]] (by decide)
  exact ⟨h.1, h.2.2 _ "EMAIL" (by decide)⟩

/-- Counterexample to C8 as stated: a raw record whose `date` key is
present but empty yields an empty `DATE` field, not the current timestamp
— `dict.get` only falls back to the default when the key is absent. -/
theorem c8_counterexample :
    rowGet (buildRec [("date", "")] "2026-01-01T00:00:00+00:00") "DATE"
        = "" ∧
    ("" : String) ≠ "2026-01-01T00:00:00+00:00" := by decide

/-- C8 amended: `DATE` is the trimmed raw `date` value whenever the `date`
key is present (even when that value is empty), and the normalisation-time
timestamp only when the key is absent. -/
theorem c8_date_amended (row : Row) (now : String) :
    (rowFind row "date" = none →
      rowGet (buildRec row now) "DATE" = pyStrip now) ∧
    (∀ v, rowFind row "date" = some v →
      rowGet (buildRec row now) "DATE" = pyStrip v) := by
  have hbase : rowGet (buildRec row now) "DATE" =
      pyStrip ((rowFind row "date").getD now) := rfl
  constructor
  · intro h
    rw [hbase, h]
    rfl
  · intro v h
    rw [hbase, h]
    rfl

/-- C1: whenever a local row's natural key is non-empty and resolves in
the remote map, the emitted change row takes every workflow-owned column
from the matched remote row and every backend-owned column from the local
row, whatever the two values are. -/
theorem c1_ownership_isolation (dfLocal dfSheet : List Row)
    (hs : dfSheet ≠ []) (i : Nat) (L : Row) (hL : dfLocal[i]? = some L)
    (hk : keyOf L ≠ "") (R : Row)
    (hR : mapLookup (buildMap (dfSheet.map annotRow)) (keyOf L) = some R) :
    ∃ M, (computeChanges dfLocal dfSheet).changes[i]? = some M ∧
      (∀ c, WORKFLOW_OWNED.contains c = true → rowGet M c = rowGet R c) ∧
      (∀ c, BACKEND_OWNED.contains c = true → rowGet M c = rowGet L c) := by
  have hch : (computeChanges dfLocal dfSheet).changes =
      (dfLocal.map annotRow).map
        (rowFor (buildMap (dfSheet.map annotRow))) := by
    rw [computeChanges_eq dfLocal dfSheet hs]
  have hM : rowFor (buildMap (dfSheet.map annotRow)) (annotRow L) =
      mergeRow (annotRow L) R := by
    unfold rowFor
    rw [rowGet_annotRow_email_norm]
    have hkf : (keyOf L == "") = false := by simpa using hk
    simp [hkf, hR]
  refine ⟨mergeRow (annotRow L) R, ?_, ?_, ?_⟩
  · rw [hch]
    simp [List.getElem?_map, hL, hM]
  · intro c hc
    exact rowGet_mergeRow_workflow (annotRow L) R c hc
  · intro c hc
    rw [rowGet_mergeRow_backend (annotRow L) R c hc,
      rowGet_annotRow_ne L c (backend_ne_email_norm c hc)]

/-- Witness for C1: Scenario B — local Name differs, remote Status
differs; the merged row takes Status from the sheet and NAME and EMAIL
from the local row. -/
theorem c1_ownership_isolation_witness :
    ∃ M, (computeChanges
        [[("EMAIL", "A@x.com"), ("NAME", "New"), ("STATUS", "Pending")]]
        [[("EMAIL", "a@x.com"), ("NAME", "Old"),
          ("STATUS", "Replied")]]).changes[0]? = some M ∧
      (∀ c, WORKFLOW_OWNED.contains c = true →
        rowGet M c =
          rowGet [("EMAIL", "a@x.com"), ("NAME", "Old"),
            ("STATUS", "Replied"), ("email_norm", "a@x.com")] c) ∧
      (∀ c, BACKEND_OWNED.contains c = true →
        rowGet M c =
          rowGet [("EMAIL", "A@x.com"), ("NAME", "New"),
            ("STATUS", "Pending")] c) :=
  c1_ownership_isolation
    [[("EMAIL", "A@x.com"), ("NAME", "New"), ("STATUS", "Pending")]]
    [[("EMAIL", "a@x.com"), ("NAME", "Old"), ("STATUS", "Replied")]]
    (by decide) 0
    [("EMAIL", "A@x.com"), ("NAME", "New"), ("STATUS", "Pending")]
    (by decide) (by decide)
    [("EMAIL", "a@x.com"), ("NAME", "Old"), ("STATUS", "Replied"),
      ("email_norm", "a@x.com")]
    (by decide)

/-- C3: a local row whose natural key is empty, or matches no remote
row's natural key, is emitted verbatim (all nine canonical columns equal
to the local values) and classified as an insert, for every remote
content; on an empty sheet the local rows are returned as-is. -/
theorem c3_insert_on_miss (dfLocal dfSheet : List Row) (i : Nat) (L : Row)
    (hL : dfLocal[i]? = some L)
    (hmiss : keyOf L = "" ∨ ∀ r ∈ dfSheet, keyOf r ≠ keyOf L) :
    (dfSheet = [] → (computeChanges dfLocal dfSheet).changes = dfLocal) ∧
    (dfSheet ≠ [] →
      ∃ M, (computeChanges dfLocal dfSheet).changes[i]? = some M ∧
        (∀ c, SHEET_COLUMNS.contains c = true → rowGet M c = rowGet L c) ∧
        isInsert (buildMap (dfSheet.map annotRow)) (annotRow L) = true ∧
        (computeChanges dfLocal dfSheet).inserts =
          (dfLocal.map annotRow).countP
            (fun l => isInsert (buildMap (dfSheet.map annotRow)) l)) := by
  constructor
  · intro h
    subst h
    rfl
  · intro hs
    have hnone : keyOf L ≠ "" →
        mapLookup (buildMap (dfSheet.map annotRow)) (keyOf L) = none := by
      intro hk
      rcases hmiss with hk' | hm
      · exact absurd hk' hk
      · rw [mapLookup_buildMap _ _ hk]
        apply lastWith_eq_none
        intro x hx
        obtain ⟨r, hr, rfl⟩ := List.mem_map.mp hx
        rw [rowGet_annotRow_email_norm]
        simpa using hm r hr
    have hM : rowFor (buildMap (dfSheet.map annotRow)) (annotRow L) =
        insertRowOf (annotRow L) := by
      unfold rowFor
      rw [rowGet_annotRow_email_norm]
      by_cases hk : keyOf L = ""
      · simp [hk]
      · have hkf : (keyOf L == "") = false := by simpa using hk
        simp [hkf, hnone hk]
    have hch : (computeChanges dfLocal dfSheet).changes =
        (dfLocal.map annotRow).map
          (rowFor (buildMap (dfSheet.map annotRow))) := by
      rw [computeChanges_eq dfLocal dfSheet hs]
    refine ⟨insertRowOf (annotRow L), ?_, ?_, ?_, ?_⟩
    · rw [hch]
      simp [List.getElem?_map, hL, hM]
    · intro c hc
      rw [rowGet_insertRowOf (annotRow L) c hc,
        rowGet_annotRow_ne L c (sheet_col_ne_email_norm c hc)]
    · unfold isInsert
      rw [rowGet_annotRow_email_norm]
      by_cases hk : keyOf L = ""
      · simp [hk]
      · simp [hnone hk]
    · rw [computeChanges_eq dfLocal dfSheet hs]
/-- Witness for C3: an unmatched local row is emitted verbatim and counted
as an insert. -/
theorem c3_insert_on_miss_witness :
    ([[("EMAIL", "b@y.com"), ("STATUS", "Replied")]] = [] →
      (computeChanges [[("EMAIL", "a@x.com"), ("NAME", "A")]]
        [[("EMAIL", "b@y.com"), ("STATUS", "Replied")]]).changes =
        [[("EMAIL", "a@x.com"), ("NAME", "A")]]) ∧
    ([[("EMAIL", "b@y.com"), ("STATUS", "Replied")]] ≠ [] →
      ∃ M, (computeChanges [[("EMAIL", "a@x.com"), ("NAME", "A")]]
          [[("EMAIL", "b@y.com"), ("STATUS", "Replied")]]).changes[0]?
            = some M ∧
        (∀ c, SHEET_COLUMNS.contains c = true →
          rowGet M c = rowGet [("EMAIL", "a@x.com"), ("NAME", "A")] c) ∧
        isInsert
          (buildMap
            ([[("EMAIL", "b@y.com"), ("STATUS", "Replied")]].map annotRow))
          (annotRow [("EMAIL", "a@x.com"), ("NAME", "A")]) = true ∧
        (computeChanges [[("EMAIL", "a@x.com"), ("NAME", "A")]]
            [[("EMAIL", "b@y.com"), ("STATUS", "Replied")]]).inserts =
          ([[("EMAIL", "a@x.com"), ("NAME", "A")]].map annotRow).countP
            (fun l =>
              isInsert
                (buildMap ([[("EMAIL", "b@y.com"),
                  ("STATUS", "Replied")]].map annotRow)) l)) :=
  c3_insert_on_miss [[("EMAIL", "a@x.com"), ("NAME", "A")]]
    [[("EMAIL", "b@y.com"), ("STATUS", "Replied")]] 0
    [("EMAIL", "a@x.com"), ("NAME", "A")] (by decide) (by decide)

/-- Witness for C8 amended: absent `date` key versus present `date` key. -/
theorem c8_date_amended_witness :
    rowGet (buildRec [("email", "a@x.com")] "2026-01-01T00:00:00+00:00")
        "DATE" = pyStrip "2026-01-01T00:00:00+00:00" ∧
    rowGet (buildRec [("date", " 2025-05-05 ")] "now") "DATE" =
      pyStrip " 2025-05-05 " :=
  ⟨(c8_date_amended [("email", "a@x.com")] "2026-01-01T00:00:00+00:00").1
      (by decide),
    (c8_date_amended [("date", " 2025-05-05 ")] "now").2 " 2025-05-05 "
      (by decide)⟩

/-- C4: dispatch slices the change-set into `⌈n / b⌉` contiguous batches
of at most `b` rows in change-set order (their concatenation is the
change-set itself); if every batch is delivered the returned count is `n`,
and if exactly one batch exhausts its retries the count is `n` minus that
batch's row count — dropped batches never increment the total.  The
production loop instantiates `b` with `BATCH_SIZE`. -/
theorem c4_batch_accounting (b : Nat) (hb : 0 < b) (changes : List Row)
    (sched : Nat → Nat → Outcome) :
    (chunksOf b changes).length = (changes.length + b - 1) / b ∧
    (∀ batch ∈ chunksOf b changes, batch.length ≤ b) ∧
    (chunksOf b changes).flatten = changes ∧
    syncDispatch changes sched = dispatchWith BATCH_SIZE changes sched ∧
    ((∀ t bt, (chunksOf b changes)[t]? = some bt →
        (postBatch bt (sched t)).success = true) →
      dispatchWith b changes sched = changes.length) ∧
    (∀ t0 bt0, (chunksOf b changes)[t0]? = some bt0 →
      (postBatch bt0 (sched t0)).success = false →
      (∀ t bt, t ≠ t0 → (chunksOf b changes)[t]? = some bt →
        (postBatch bt (sched t)).success = true) →
      dispatchWith b changes sched = changes.length - bt0.length) := by
  have hflat : (chunksOf b changes).flatten = changes :=
    chunksOf_join b hb changes.length changes le_rfl
  have hsum : ((chunksOf b changes).map List.length).sum = changes.length := by
    rw [← List.length_flatten, hflat]
  refine ⟨by simp [chunksOf],
    fun batch h => chunksOf_mem_length_le b changes batch h, hflat, rfl,
    ?_, ?_⟩
  · intro hall
    rw [dispatchWith, dispatchGo_all_ok sched (chunksOf b changes) 0
      (fun t bt hbt => by simpa using hall t bt hbt), hsum]
  · intro t0 bt0 hbt0 hfail hok
    rw [dispatchWith, dispatchGo_one_fail sched (chunksOf b changes) 0 t0
      bt0 hbt0 (by simpa using hfail)
      (fun t bt ht hbt => by simpa using hok t bt ht hbt), hsum]

/-- Witness for C4, Scenario C in miniature: three rows, batch size two.
All delivered gives count 3; the first batch dropped gives count 1. -/
theorem c4_batch_accounting_witness :
    dispatchWith 2 [[("NAME", "1")], [("NAME", "2")], [("NAME", "3")]]
        (fun _ _ => Outcome.resp 200 false) = 3 ∧
    dispatchWith 2 [[("NAME", "1")], [("NAME", "2")], [("NAME", "3")]]
        (fun j _ => if j = 0 then Outcome.exn else Outcome.resp 200 false)
      = 3 - 2 := by
  constructor
  · exact (c4_batch_accounting 2 (by decide)
      [[("NAME", "1")], [("NAME", "2")], [("NAME", "3")]]
      (fun _ _ => Outcome.resp 200 false)).2.2.2.2.1
      (fun t bt hbt => by cases bt with | nil => rfl | cons x xs => rfl)
  · refine (c4_batch_accounting 2 (by decide)
      [[("NAME", "1")], [("NAME", "2")], [("NAME", "3")]]
      (fun j _ => if j = 0 then Outcome.exn
        else Outcome.resp 200 false)).2.2.2.2.2
      0 [[("NAME", "1")], [("NAME", "2")]] (by decide) (by decide) ?_
    intro t bt ht hbt
    match t, ht with
    | 0, ht => exact absurd rfl ht
    | 1, _ =>
      have he : (chunksOf 2
          [[("NAME", "1")], [("NAME", "2")], [("NAME", "3")]])[1]? =
          some [[("NAME", "3")]] := by decide
      rw [he] at hbt
      cases hbt
      decide
    | n + 2, _ =>
      have he : (chunksOf 2
          [[("NAME", "1")], [("NAME", "2")], [("NAME", "3")]])[n + 2]? =
          none := by
        apply List.getElem?_eq_none
        have : (chunksOf 2
            [[("NAME", "1")], [("NAME", "2")], [("NAME", "3")]]).length
            = 2 := by decide
        omega
      rw [he] at hbt
      exact Option.noConfusion hbt

/-- C2: idempotence of reconcile.  Take any local and remote frames and
run the sync once; the change-set is the new remote content (keyed, like
the store, by natural key with last-write-wins).  Re-running reconcile on
the same local data against that output emits, at every key present in the
first output, row content bit-for-bit identical to the first output — the
second sync is a content no-op at the remote store. -/
theorem c2_idempotence (dfLocal dfSheet : List Row) (hs : dfSheet ≠ [])
    (k : String) (hk : k ≠ "") (R : Row)
    (hR : lastWith (fun r => keyOf r == k)
      (computeChanges dfLocal dfSheet).changes = some R) :
    lastWith (fun r => keyOf r == k)
      (computeChanges dfLocal
        (computeChanges dfLocal dfSheet).changes).changes = some R := by
  have hch : (computeChanges dfLocal dfSheet).changes =
      dfLocal.map (fun L =>
        rowFor (buildMap (dfSheet.map annotRow)) (annotRow L)) := by
    rw [computeChanges_eq dfLocal dfSheet hs, List.map_map]
    rfl
  have hkey1 : ∀ L : Row,
      keyOf (rowFor (buildMap (dfSheet.map annotRow)) (annotRow L))
        = keyOf L := fun L => by
    rw [keyOf_rowFor, keyOf_annotRow]
  have hlast1 : lastWith (fun r => keyOf r == k)
      (computeChanges dfLocal dfSheet).changes =
      (lastWith (fun r => keyOf r == k) dfLocal).map (fun L =>
        rowFor (buildMap (dfSheet.map annotRow)) (annotRow L)) := by
    rw [hch]
    exact lastWith_map _ _ _ (fun r => by rw [hkey1]) dfLocal
  have hR' : (lastWith (fun r => keyOf r == k) dfLocal).map (fun L =>
      rowFor (buildMap (dfSheet.map annotRow)) (annotRow L)) = some R := by
    rw [← hlast1]
    exact hR
  obtain ⟨L, hL, hgL⟩ := Option.map_eq_some'.mp hR'
  have hkL : keyOf L = k := by
    have := (lastWith_mem _ dfLocal L hL).2
    simpa using this
  have hRmem := (lastWith_mem _ _ R hR).1
  have hC1ne : (computeChanges dfLocal dfSheet).changes ≠ [] := by
    intro hnil
    rw [hnil] at hRmem
    exact absurd hRmem (List.not_mem_nil R)
  have hch2 : (computeChanges dfLocal
      (computeChanges dfLocal dfSheet).changes).changes =
      dfLocal.map (fun L =>
        rowFor (buildMap ((computeChanges dfLocal dfSheet).changes.map
          annotRow)) (annotRow L)) := by
    rw [computeChanges_eq dfLocal _ hC1ne, List.map_map]
    rfl
  have hkey2 : ∀ L : Row,
      keyOf (rowFor (buildMap ((computeChanges dfLocal dfSheet).changes.map
        annotRow)) (annotRow L)) = keyOf L := fun L => by
    rw [keyOf_rowFor, keyOf_annotRow]
  have hlast2 : lastWith (fun r => keyOf r == k)
      (computeChanges dfLocal
        (computeChanges dfLocal dfSheet).changes).changes =
      (lastWith (fun r => keyOf r == k) dfLocal).map (fun L =>
        rowFor (buildMap ((computeChanges dfLocal dfSheet).changes.map
          annotRow)) (annotRow L)) := by
    rw [hch2]
    exact lastWith_map _ _ _ (fun r => by rw [hkey2]) dfLocal
  have hm2 : mapLookup (buildMap ((computeChanges dfLocal
      dfSheet).changes.map annotRow)) k = some (annotRow R) := by
    rw [mapLookup_buildMap _ k hk,
      lastWith_map (fun r => rowGet r "email_norm" == k)
        (fun r => keyOf r == k) annotRow
        (fun r => by simp [rowGet_annotRow_email_norm])
        (computeChanges dfLocal dfSheet).changes,
      hR]
    rfl
  have hkf : (k == "") = false := by simpa using hk
  have hfor : rowFor (buildMap ((computeChanges dfLocal
      dfSheet).changes.map annotRow)) (annotRow L) =
      mergeRow (annotRow L) (annotRow R) := by
    unfold rowFor
    rw [rowGet_annotRow_email_norm, hkL]
    simp [hkf, hm2]
  have hbranch : rowFor (buildMap (dfSheet.map annotRow)) (annotRow L) =
      insertRowOf (annotRow L) ∨
      ∃ ex, rowFor (buildMap (dfSheet.map annotRow)) (annotRow L) =
        mergeRow (annotRow L) ex := by
    unfold rowFor
    rw [rowGet_annotRow_email_norm, hkL]
    cases hEx : mapLookup (buildMap (dfSheet.map annotRow)) k with
    | none => left; simp [hkf, hEx]
    | some ex => right; exact ⟨ex, by simp [hkf, hEx]⟩
  have hgoal : mergeRow (annotRow L) (annotRow R) = R := by
    rcases hbranch with hbr | ⟨ex, hbr⟩
    · rw [← hgL, hbr]
      exact mergeRow_rowSet_insertRowOf (annotRow L) _
    · rw [← hgL, hbr]
      exact mergeRow_rowSet_mergeRow (annotRow L) ex _
  rw [hlast2, hL, Option.map_some', hfor, hgoal]

/-- Witness for C2: one matched row; after the first sync the second
sync's row at the key equals the first sync's merged row exactly. -/
theorem c2_idempotence_witness :
    lastWith (fun r => keyOf r == "a@x.com")
      (computeChanges
        [[("EMAIL", "a@x.com"), ("NAME", "New"), ("STATUS", "Pending")]]
        (computeChanges
          [[("EMAIL", "a@x.com"), ("NAME", "New"), ("STATUS", "Pending")]]
          [[("EMAIL", "a@x.com"), ("NAME", "Old"),
            ("STATUS", "Replied")]]).changes).changes =
      some [("NAME", "New"), ("EMAIL", "a@x.com"), ("ROLE", ""),
        ("COMPANY", ""), ("SOURCE", ""), ("DATE", ""),
        ("STATUS", "Replied"), ("TEMPLATE USED", ""), ("NOTES", "")] :=
  c2_idempotence
    [[("EMAIL", "a@x.com"), ("NAME", "New"), ("STATUS", "Pending")]]
    [[("EMAIL", "a@x.com"), ("NAME", "Old"), ("STATUS", "Replied")]]
    (by decide) "a@x.com" (by decide)
    [("NAME", "New"), ("EMAIL", "a@x.com"), ("ROLE", ""),
      ("COMPANY", ""), ("SOURCE", ""), ("DATE", ""),
      ("STATUS", "Replied"), ("TEMPLATE USED", ""), ("NOTES", "")]
    (by decide)

/-- Counterexample to C6 as stated: three attempts all failing with a
non-200 response make the loop run its three attempts with **zero** total
backoff — `time.sleep` sits only in the `except` branch, so no wait
happens between consecutive attempts that fail without raising. -/
theorem c6_counterexample :
    (postBatch [[("NAME", "a")]]
        (fun _ => Outcome.resp 500 false)).attempts = 3 ∧
    (postBatch [[("NAME", "a")]]
        (fun _ => Outcome.resp 500 false)).sleepTime = 0 ∧
    RETRY_DELAY = 2 := by decide

/-- C6 amended: each batch is attempted at most `RETRIES` times and the
loop stops at the first successful attempt; the fixed `RETRY_DELAY`
backoff is slept exactly after each attempt that failed by raising a
transport exception (including a final failed attempt), while attempts
failing with a non-success response proceed immediately. -/
theorem c6_retry_policy_amended (batch : List Row) (f : Nat → Outcome)
    (hb : batch ≠ []) :
    (postBatch batch f).attempts ≤ RETRIES ∧
    (∀ i, 1 ≤ i → i ≤ RETRIES → attemptOk (f i) = true →
      (∀ j, 1 ≤ j → j < i → attemptOk (f j) = false) →
      postBatch batch f = ⟨true, i, sleepSum f 1 (i - 1)⟩) ∧
    ((∀ i, 1 ≤ i → i ≤ RETRIES → attemptOk (f i) = false) →
      postBatch batch f = ⟨false, RETRIES, sleepSum f 1 RETRIES⟩) ∧
    (∀ o : Outcome, attemptSleep o =
      if o = Outcome.exn then RETRY_DELAY else 0) := by
  rw [postBatch_of_ne_nil batch f hb]
  refine ⟨postBatchGo_attempts_le f RETRIES 1, ?_, ?_, ?_⟩
  · intro i h1 hR hok hfail
    have := postBatchGo_first_ok f RETRIES (i - 1) 1 (by omega)
      (by rwa [show 1 + (i - 1) = i by omega])
      (fun j hj1 hj2 => hfail j hj1 (by omega))
    rwa [show i - 1 + 1 = i by omega] at this
  · intro hall
    exact postBatchGo_all_fail f RETRIES 1
      (fun j hj1 hj2 => hall j hj1 (by omega))
  · intro o
    cases o with
    | exn => rfl
    | resp code errDict => rfl

/-- Witness for C6 amended: first attempt raises, second succeeds — the
result is success after two attempts with one backoff slept. -/
theorem c6_retry_policy_amended_witness :
    postBatch [[("NAME", "a")]]
        (fun i => if i = 1 then Outcome.exn else Outcome.resp 200 false) =
      ⟨true, 2, sleepSum
        (fun i => if i = 1 then Outcome.exn else Outcome.resp 200 false)
        1 1⟩ ∧
    sleepSum
        (fun i => if i = 1 then Outcome.exn else Outcome.resp 200 false)
        1 1 = RETRY_DELAY :=
  ⟨((c6_retry_policy_amended [[("NAME", "a")]]
        (fun i => if i = 1 then Outcome.exn else Outcome.resp 200 false)
        (by decide)).2.1 2 (by decide) (by decide) (by decide)
      (fun j hj1 hj2 => by
        have : j = 1 := by omega
        subst this
        decide)),
    by decide⟩

/-- C7: a 200 response whose JSON body is a dict with `status == "error"`
is not a successful attempt: it keeps consuming the same `RETRIES` attempt
budget as a transport failure, a later attempt can still succeed, and a
batch whose every attempt ends this way is dropped (returns failure) after
all `RETRIES` attempts — exactly as many as under pure transport
failure. -/
theorem c7_app_error_not_success (batch : List Row) (f : Nat → Outcome)
    (hb : batch ≠ []) :
    attemptOk (Outcome.resp 200 true) = false ∧
    ((∀ i, 1 ≤ i → i ≤ RETRIES → f i = Outcome.resp 200 true) →
      postBatch batch f = ⟨false, RETRIES, 0⟩ ∧
      (postBatch batch f).success
        = (postBatch batch (fun _ => Outcome.exn)).success ∧
      (postBatch batch f).attempts
        = (postBatch batch (fun _ => Outcome.exn)).attempts) ∧
    (∀ g : Nat → Outcome, g 1 = Outcome.resp 200 true →
      attemptOk (g 2) = true → postBatch batch g = ⟨true, 2, 0⟩) := by
  refine ⟨rfl, ?_, ?_⟩
  · intro hf
    have hfail : ∀ j, 1 ≤ j → j < 1 + RETRIES → attemptOk (f j) = false :=
      fun j hj1 hj2 => by rw [hf j hj1 (by omega)]; rfl
    have hsleep : sleepSum f 1 RETRIES = 0 := by
      have e1 := hf 1 (by omega) (by decide)
      have e2 := hf 2 (by omega) (by decide)
      have e3 := hf 3 (by omega) (by decide)
      show attemptSleep (f 1) + (attemptSleep (f 2)
        + (attemptSleep (f 3) + 0)) = 0
      rw [e1, e2, e3]
      rfl
    have hmain : postBatch batch f = ⟨false, RETRIES, 0⟩ := by
      rw [postBatch_of_ne_nil batch f hb,
        postBatchGo_all_fail f RETRIES 1 hfail, hsleep]
    have hexn : postBatch batch (fun _ => Outcome.exn) =
        ⟨false, RETRIES, sleepSum (fun _ => Outcome.exn) 1 RETRIES⟩ := by
      rw [postBatch_of_ne_nil batch _ hb]
      exact postBatchGo_all_fail _ RETRIES 1 (fun j _ _ => rfl)
    exact ⟨hmain, by rw [hmain, hexn], by rw [hmain, hexn]⟩
  · intro g hg1 hok2
    rw [postBatch_of_ne_nil batch g hb]
    have := postBatchGo_first_ok g RETRIES 1 1 (by decide)
      (by simpa using hok2)
      (fun j hj1 hj2 => by
        have : j = 1 := by omega
        subst this
        rw [hg1]
        rfl)
    rw [this]
    have : sleepSum g 1 1 = 0 := by
      show attemptSleep (g 1) + 0 = 0
      rw [hg1]
      rfl
    rw [this]

/-- Witness for C7: every attempt returns 200 with an error body — the
batch is dropped after all three attempts, matching the all-exception
trace in success flag and attempt count. -/
theorem c7_app_error_not_success_witness :
    postBatch [[("NAME", "a")]] (fun _ => Outcome.resp 200 true) =
      ⟨false, RETRIES, 0⟩ ∧
    (postBatch [[("NAME", "a")]] (fun _ => Outcome.resp 200 true)).attempts
      = (postBatch [[("NAME", "a")]] (fun _ => Outcome.exn)).attempts :=
  ⟨((c7_app_error_not_success [[("NAME", "a")]]
        (fun _ => Outcome.resp 200 true) (by decide)).2.1
      (fun i _ _ => rfl)).1,
    ((c7_app_error_not_success [[("NAME", "a")]]
        (fun _ => Outcome.resp 200 true) (by decide)).2.1
      (fun i _ _ => rfl)).2.2⟩

end SheetSync
